import Mathlib

/-!
Verification of the cowSolver batch-auction solver core.

This file gives a shallow embedding, in Lean 4, of the Rust sources under
crates/core/src: the domain model (orders, token amounts), the math
utilities, the matching engine, the routing engine, the pricing engine and
the solver orchestrator.  256-bit unsigned machine integers are modelled as
Nat together with explicit bounds against U256MOD = 2 ^ 256 at the points
where the Rust code uses checked arithmetic.  64-bit floating point values
(quality scores, confidences, slippage, surplus, route scores) are modelled
as rationals; every concrete comparison used in a theorem below is robust
under that change of representation.  Fallible Rust functions returning
Result are modelled with Except, and Option with Option.
-/

namespace CowSolver

/-- 20-byte addresses are modelled as naturals. -/
abbrev Address := Nat

/-- 32-byte order identifiers are modelled as naturals. -/
abbrev OrderId := Nat

/-- One more than the largest value representable in a U256. -/
def U256MOD : Nat := 2 ^ 256

/-! ## domain/tokens.rs -/

/-- Token amount with decimal awareness (domain/tokens.rs, struct TokenAmount). -/
structure TokenAmount where
  raw : Nat
  decimals : Nat
deriving DecidableEq

/-- domain/tokens.rs, TokenAmount::checked_add: requires equal decimals, then
U256::checked_add, which yields a value exactly when the sum does not overflow. -/
def TokenAmount.checked_add (a b : TokenAmount) : Option TokenAmount :=
  if a.decimals ≠ b.decimals then none
  else if a.raw + b.raw < U256MOD then some ⟨a.raw + b.raw, a.decimals⟩
  else none

/-- domain/tokens.rs, TokenAmount::checked_sub: requires equal decimals, then
U256::checked_sub, which yields a value exactly when no underflow occurs. -/
def TokenAmount.checked_sub (a b : TokenAmount) : Option TokenAmount :=
  if a.decimals ≠ b.decimals then none
  else if b.raw ≤ a.raw then some ⟨a.raw - b.raw, a.decimals⟩
  else none

/-- domain/tokens.rs, TokenAmount::checked_mul by a scalar:
U256::checked_mul yields a value exactly when the product does not overflow. -/
def TokenAmount.checked_mul (a : TokenAmount) (scalar : Nat) : Option TokenAmount :=
  if a.raw * scalar < U256MOD then some ⟨a.raw * scalar, a.decimals⟩
  else none

/-- domain/tokens.rs, TokenAmount::checked_div by a scalar: none on a zero
scalar, otherwise U256 division, which is floor division. -/
def TokenAmount.checked_div (a : TokenAmount) (scalar : Nat) : Option TokenAmount :=
  if scalar = 0 then none
  else some ⟨a.raw / scalar, a.decimals⟩

/-! ## domain/orders.rs -/

/-- domain/orders.rs, enum OrderType. -/
inductive OrderType where
  | Buy
  | Sell
deriving DecidableEq

/-- domain/orders.rs, enum OrderStatus. -/
inductive OrderStatus where
  | Open
  | Pending
  | Filled
  | PartiallyFilled
  | Cancelled
  | Expired
deriving DecidableEq

/-- domain/orders.rs, struct Order.  Chain identifiers are modelled as
naturals; the bridge provider is a string as in the source. -/
structure Order where
  id : OrderId
  owner : Address
  sell_token : Address
  buy_token : Address
  sell_amount : Nat
  buy_amount : Nat
  valid_to : Nat
  fee_amount : Nat
  kind : OrderType
  partially_fillable : Bool
  status : OrderStatus
  source_chain : Option Nat
  destination_chain : Option Nat
  bridge_provider : Option String
deriving DecidableEq

/-- domain/orders.rs, Order::is_cross_chain. -/
def Order.is_cross_chain (o : Order) : Bool :=
  o.source_chain.isSome && o.destination_chain.isSome

/-- domain/orders.rs, Order::validate. -/
def Order.validate (o : Order) : Except String Unit :=
  if o.sell_amount = 0 then
    .error "Sell amount must be greater than zero"
  else if o.buy_amount = 0 then
    .error "Buy amount must be greater than zero"
  else if o.sell_token = o.buy_token then
    .error "Sell and buy tokens must be different"
  else if o.valid_to = 0 then
    .error "Valid_to timestamp must be set"
  else if o.is_cross_chain then
    if o.source_chain.isNone || o.destination_chain.isNone then
      .error "Cross-chain orders must specify both source and destination chains"
    else if o.bridge_provider.isNone then
      .error "Cross-chain orders must specify a bridge provider"
    else .ok ()
  else .ok ()

/-! ## math/mod.rs -/

/-- math/mod.rs, calculate_amm_output.  The U256 checked operations of the
source are rendered as explicit overflow guards against U256MOD; the division
by 10000 and the final division are U256 floor divisions. -/
def calculate_amm_output (amount_in reserve_in reserve_out fee_bps : Nat) : Option Nat :=
  if reserve_in = 0 ∨ reserve_out = 0 then none
  else
    let fee_multiplier := 10000 - fee_bps
    if U256MOD ≤ amount_in * fee_multiplier then none
    else
      let amount_in_with_fee := amount_in * fee_multiplier / 10000
      if U256MOD ≤ amount_in_with_fee * reserve_out then none
      else
        let numerator := amount_in_with_fee * reserve_out
        if U256MOD ≤ reserve_in + amount_in_with_fee then none
        else
          let denominator := reserve_in + amount_in_with_fee
          if denominator = 0 then none
          else some (numerator / denominator)

/-! ## solver/routing.rs : pools and per-hop output -/

/-- solver/routing.rs, enum PoolType. -/
inductive PoolType where
  | UniswapV2
  | UniswapV3
  | Balancer
  | Curve
  | ConstantProduct
deriving DecidableEq

/-- solver/routing.rs, struct LiquidityPool. -/
structure LiquidityPool where
  address : Address
  pool_type : PoolType
  token_a : Address
  token_b : Address
  reserve_a : Nat
  reserve_b : Nat
  fee_bps : Nat
  gas_cost : Nat
deriving DecidableEq

/-- solver/routing.rs, RoutingEngine::calculate_constant_product_output.
The source multiplies U256 values directly (panicking on overflow); the
embedding computes in Nat, so theorems that depend on overflow freedom carry
explicit bounds. -/
def calculate_constant_product_output
    (amount_in reserve_in reserve_out fee_bps : Nat) : Nat :=
  if amount_in = 0 ∨ reserve_in = 0 ∨ reserve_out = 0 then 0
  else
    let amount_in_with_fee := amount_in * (10000 - fee_bps)
    let numerator := amount_in_with_fee * reserve_out
    let denominator := reserve_in * 10000 + amount_in_with_fee
    if denominator = 0 then 0
    else numerator / denominator

/-- Panic-aware rendering of RoutingEngine::calculate_constant_product_output:
the source multiplies U256 values with unchecked arithmetic, which panics on
overflow, and likewise adds the denominator unchecked.  The guards appear in
evaluation order (amount_in times the fee multiplier, then times the out
reserve; the in reserve times 10000, then plus the fee-adjusted amount);
none models the panic, some v a normal return of v.  The unbounded-Nat
calculate_constant_product_output above performs the same computation, so
the two agree whenever this one returns a value. -/
def calculate_constant_product_output_checked
    (amount_in reserve_in reserve_out fee_bps : Nat) : Option Nat :=
  if amount_in = 0 ∨ reserve_in = 0 ∨ reserve_out = 0 then some 0
  else
    let amount_in_with_fee := amount_in * (10000 - fee_bps)
    if U256MOD ≤ amount_in_with_fee then none
    else if U256MOD ≤ amount_in_with_fee * reserve_out then none
    else
      let numerator := amount_in_with_fee * reserve_out
      if U256MOD ≤ reserve_in * 10000 then none
      else if U256MOD ≤ reserve_in * 10000 + amount_in_with_fee then none
      else
        let denominator := reserve_in * 10000 + amount_in_with_fee
        if denominator = 0 then some 0
        else some (numerator / denominator)

set_option linter.unusedVariables false in
/-- solver/routing.rs, RoutingEngine::calculate_stable_swap_output.
The reserve_in parameter is unused, as in the source. -/
def calculate_stable_swap_output
    (amount_in reserve_in reserve_out fee_bps : Nat) : Nat :=
  let fee_multiplier := 10000 - fee_bps
  let amount_out := amount_in * fee_multiplier / 10000
  min amount_out (reserve_out * 99 / 100)

/-- solver/routing.rs, RoutingEngine::calculate_output: pick the swap
direction from token_in, then dispatch on the pool variant. -/
def calculate_output (pool : LiquidityPool) (token_in : Address) (amount_in : Nat) : Nat :=
  let rs :=
    if token_in = pool.token_a then (pool.reserve_a, pool.reserve_b)
    else (pool.reserve_b, pool.reserve_a)
  match pool.pool_type with
  | .UniswapV2 => calculate_constant_product_output amount_in rs.1 rs.2 pool.fee_bps
  | .ConstantProduct => calculate_constant_product_output amount_in rs.1 rs.2 pool.fee_bps
  | .UniswapV3 => calculate_constant_product_output amount_in rs.1 rs.2 pool.fee_bps
  | .Balancer => calculate_constant_product_output amount_in rs.1 rs.2 pool.fee_bps
  | .Curve => calculate_stable_swap_output amount_in rs.1 rs.2 pool.fee_bps

/-! ## solver/matching.rs : match selection -/

/-- solver/matching.rs, enum MatchType. -/
inductive MatchType where
  | DirectPair
  | Ring
  | Batch
deriving DecidableEq

/-- solver/matching.rs, struct OrderMatch.  The f64 scores are modelled as
rationals. -/
structure OrderMatch where
  orders : List OrderId
  match_type : MatchType
  quality_score : ℚ
  estimated_surplus : ℚ

/-- Recursive core of MatchingEngine::select_optimal_matches: the used_orders
HashSet is modelled as the list of order identifiers inserted so far. -/
def select_optimal_matches_aux (used : List OrderId) :
    List OrderMatch → List OrderMatch
  | [] => []
  | m :: rest =>
    if m.orders.any (fun oid => used.contains oid) then
      select_optimal_matches_aux used rest
    else
      m :: select_optimal_matches_aux (used ++ m.orders) rest

/-- solver/matching.rs, MatchingEngine::select_optimal_matches: greedy
selection of non-overlapping matches, iterating candidates in the given
order. -/
def select_optimal_matches (ms : List OrderMatch) : List OrderMatch :=
  select_optimal_matches_aux [] ms

/-- The selection rule as the specification words it: a candidate is accepted
exactly when no order id it mentions appears in a previously accepted match.
Used as the reference point for the refinement theorem about
select_optimal_matches. -/
def select_disjoint_spec (acc : List OrderMatch) :
    List OrderMatch → List OrderMatch
  | [] => []
  | m :: rest =>
    if ∀ oid ∈ m.orders, ∀ p ∈ acc, oid ∉ p.orders then
      m :: select_disjoint_spec (acc ++ [m]) rest
    else
      select_disjoint_spec acc rest

/-! ## settlement/mod.rs -/

/-- settlement/mod.rs, struct Trade. -/
structure Trade where
  order_id : OrderId
  executed_sell_amount : Nat
  executed_buy_amount : Nat
  fee : Nat
deriving DecidableEq

/-- settlement/mod.rs, enum InteractionType. -/
inductive InteractionType where
  | UniswapV2Swap
  | UniswapV3Swap
  | BalancerSwap
  | CurveSwap
  | Approval
  | Custom
deriving DecidableEq

/-- settlement/mod.rs, struct Interaction; call data bytes are naturals. -/
structure Interaction where
  target : Address
  call_data : List Nat
  value : Nat
  interaction_type : InteractionType
deriving DecidableEq

/-- settlement/mod.rs, struct PostHook. -/
structure PostHook where
  bridge_contract : Address
  call_data : List Nat
  source_chain : Nat
  destination_chain : Nat
  intermediate_token : Address
  amount : Nat
  recipient : Address
deriving DecidableEq

/-- settlement/mod.rs, struct SettlementPlan.  The clearing-price HashMap is
modelled as an association list without duplicate keys. -/
structure SettlementPlan where
  trades : List Trade := []
  interactions : List Interaction := []
  clearing_prices : List (Address × Nat) := []
  post_hooks : List PostHook := []
deriving DecidableEq

/-- settlement/mod.rs, Settlement::add_trade. -/
def SettlementPlan.add_trade (s : SettlementPlan) (trade : Trade) : SettlementPlan :=
  { s with trades := s.trades ++ [trade] }

/-- settlement/mod.rs, Settlement::set_clearing_price (HashMap::insert
overwrites the previous binding of the key). -/
def SettlementPlan.set_clearing_price
    (s : SettlementPlan) (token : Address) (price : Nat) : SettlementPlan :=
  { s with clearing_prices :=
      (token, price) :: s.clearing_prices.filter (fun kv => kv.1 != token) }

/-- settlement/mod.rs, Settlement::validate: the settlement must contain at
least one trade. -/
def SettlementPlan.validate (s : SettlementPlan) : Except String Unit :=
  if s.trades.isEmpty then
    .error "Settlement must contain at least one trade"
  else .ok ()

/-- settlement/mod.rs, Settlement::estimate_gas. -/
def SettlementPlan.estimate_gas (s : SettlementPlan) : Nat :=
  let base_gas := 21000
  let trade_gas := s.trades.length * 50000
  let interaction_gas := s.interactions.length * 100000
  let post_hook_gas := s.post_hooks.length * 150000
  base_gas + trade_gas + interaction_gas + post_hook_gas

/-! ## solver/mod.rs : configuration and solution -/

/-- solver/mod.rs, struct SolverConfig; float-valued fields as rationals. -/
structure SolverConfig where
  max_gas_price : Nat
  min_profit_threshold : ℚ
  max_slippage : ℚ
  enable_cow_matching : Bool
  enable_amm_routing : Bool
  enable_cross_chain : Bool
  timeout_ms : Nat

/-- solver/mod.rs, struct Solution. -/
structure Solution where
  orders : List OrderId
  settlement : SettlementPlan
  gas_cost : Nat
  surplus : ℚ
  score : ℚ

/-- solver/mod.rs, Solution::calculate_score: score = surplus minus the gas
cost scaled by 1e-9.  The source mutates in place; the embedding returns the
updated solution. -/
def Solution.calculate_score (sol : Solution) : Solution :=
  let gas_cost_eth : ℚ := (sol.gas_cost : ℚ) / 10 ^ 9
  { sol with score := sol.surplus - gas_cost_eth }

/-- solver/mod.rs, Solution::is_profitable. -/
def Solution.is_profitable (sol : Solution) (min_threshold : ℚ) : Bool :=
  decide (min_threshold ≤ sol.score)

/-! ## solver/pricing.rs : price validation -/

/-- solver/pricing.rs, struct ClearingPrice; the f64 confidence as ℚ. -/
structure ClearingPrice where
  token : Address
  price : Nat
  confidence : ℚ

/-- solver/pricing.rs, enum PricingStrategy. -/
inductive PricingStrategy where
  | MidPoint
  | MaxSurplus
  | MarketPrice
  | VolumeWeighted
deriving DecidableEq

/-- solver/pricing.rs, struct PricingEngine (the fields validate_prices
reads). -/
structure PricingEngine where
  strategy : PricingStrategy
  price_oracle : List (Address × Nat)
  min_confidence : ℚ

/-- Lookup in the clearing-price HashMap, modelled as an association list. -/
def price_lookup (prices : List (Address × ClearingPrice)) (token : Address) :
    Option ClearingPrice :=
  (prices.find? (fun kv => kv.1 == token)).map (fun kv => kv.2)

/-- solver/pricing.rs, PricingEngine::validate_prices: for every order both
tokens must be priced, both confidences must reach min_confidence, and the
sell value must cover the buy value; the first violation aborts with an
error message.  The two products sell_amount * price and buy_amount * price
are unchecked U256 multiplications in the source and panic on overflow, in
evaluation order; none models that panic, some r the normal Result r. -/
def validate_prices (eng : PricingEngine)
    (prices : List (Address × ClearingPrice)) :
    List Order → Option (Except String Unit)
  | [] => some (.ok ())
  | o :: rest =>
    match price_lookup prices o.sell_token with
    | none => some (.error ("Missing price for sell token " ++ toString o.sell_token))
    | some sell_price =>
      match price_lookup prices o.buy_token with
      | none => some (.error ("Missing price for buy token " ++ toString o.buy_token))
      | some buy_price =>
        if sell_price.confidence < eng.min_confidence then
          some (.error ("Low confidence for sell token " ++ toString o.sell_token))
        else if buy_price.confidence < eng.min_confidence then
          some (.error ("Low confidence for buy token " ++ toString o.buy_token))
        else if U256MOD ≤ o.sell_amount * sell_price.price then none
        else if U256MOD ≤ o.buy_amount * buy_price.price then none
        else
          let sell_value := o.sell_amount * sell_price.price
          let buy_value := o.buy_amount * buy_price.price
          if sell_value < buy_value then
            some (.error ("Clearing prices do not satisfy order " ++ toString o.id))
          else
            validate_prices eng prices rest

/-! ## solver/engine.rs : the orchestrator -/

/-- Placeholder order used for (in-range) list indexing. -/
def dummy_order : Order :=
  ⟨0, 0, 0, 0, 0, 0, 0, 0, .Sell, false, .Open, none, none, none⟩

/-- solver/engine.rs, SolverEngine::validate_orders: keep orders that are
Open, not expired at the given clock value, and have non-zero amounts.
(engine.rs destructures valid_to as an Option although domain/orders.rs
declares it as a plain u32; the embedding follows the domain struct, so the
expiry check applies unconditionally, which is the Option code's behaviour
whenever the field is present.)  SystemTime::now is passed in as now. -/
def validate_orders (now : Nat) (orders : List Order) : List Order :=
  orders.filter (fun o =>
    decide (o.status = OrderStatus.Open ∧ ¬ o.valid_to < now ∧
      o.sell_amount ≠ 0 ∧ o.buy_amount ≠ 0))

/-- solver/engine.rs, SolverEngine::is_price_compatible.  The source compares
64-bit floats; the embedding compares the corresponding rationals. -/
def is_price_compatible (cfg : SolverConfig) (order_a order_b : Order) : Bool :=
  let price_a : ℚ := (order_a.buy_amount : ℚ) / (order_a.sell_amount : ℚ)
  let price_b : ℚ := (order_b.sell_amount : ℚ) / (order_b.buy_amount : ℚ)
  let tolerance : ℚ := 1 + cfg.max_slippage / 100
  decide (price_a ≤ price_b * tolerance)

/-- solver/engine.rs, SolverEngine::find_cow_matches: every index pair
i < j whose orders cross token-wise and are price compatible, in iteration
order. -/
def find_cow_matches (cfg : SolverConfig) (orders : List Order) : List (Nat × Nat) :=
  if ¬ cfg.enable_cow_matching then []
  else
    orders.enum.flatMap (fun ia =>
      (orders.enum.drop (ia.1 + 1)).filterMap (fun jb =>
        if ia.2.sell_token = jb.2.buy_token ∧ ia.2.buy_token = jb.2.sell_token ∧
            is_price_compatible cfg ia.2 jb.2 = true then
          some (ia.1, jb.1)
        else none))

/-- solver/engine.rs, SolverEngine::build_settlement.  The clearing price of
a matched pair is computed in the source as the floating-point geometric mean
of the two limit prices, scaled by 1e18 and truncated; that value is not
exactly representable, so it is abstracted into the parameter cp (no claim
below depends on it).  Each match appends the clearing prices and one trade
per matched order. -/
def build_settlement (cp : Order → Order → Nat) (orders : List Order)
    (ms : List (Nat × Nat)) : SettlementPlan :=
  ms.foldl (fun settlement ij =>
    let order_a := orders.getD ij.1 dummy_order
    let order_b := orders.getD ij.2 dummy_order
    let clearing_price := cp order_a order_b
    let settlement := settlement.set_clearing_price order_a.sell_token clearing_price
    let settlement := settlement.set_clearing_price order_a.buy_token clearing_price
    let settlement := settlement.add_trade
      ⟨order_a.id, order_a.sell_amount, order_a.buy_amount, order_a.fee_amount⟩
    settlement.add_trade
      ⟨order_b.id, order_b.sell_amount, order_b.buy_amount, order_b.fee_amount⟩)
    {}

/-- solver/engine.rs, SolverEngine::calculate_surplus: per trade, the excess
of the executed buy amount over the buy amount of the first order carrying
the trade identifier, scaled by 1e-18. -/
def calculate_surplus (orders : List Order) (settlement : SettlementPlan) : ℚ :=
  settlement.trades.foldl (fun total trade =>
    match orders.find? (fun o => o.id == trade.order_id) with
    | some order =>
      if (order.buy_amount : ℚ) < (trade.executed_buy_amount : ℚ) then
        total + ((trade.executed_buy_amount : ℚ) - (order.buy_amount : ℚ)) / 10 ^ 18
      else total
    | none => total) 0

/-- The solve pipeline of solver/engine.rs up to and including the
construction of the candidate solution, before the profitability gate:
filter orders, find CoW matches, build and validate the settlement, estimate
gas, compute surplus, and score. -/
def solve_candidate (cfg : SolverConfig) (now : Nat) (cp : Order → Order → Nat)
    (orders : List Order) : Option Solution :=
  let valid_orders := validate_orders now orders
  if valid_orders.isEmpty then none
  else
    let ms := find_cow_matches cfg valid_orders
    if ms.isEmpty then none
    else
      let settlement := build_settlement cp valid_orders ms
      match settlement.validate with
      | .error _ => none
      | .ok _ =>
        let gas_cost := settlement.estimate_gas
        let surplus := calculate_surplus valid_orders settlement
        let sol : Solution :=
          ⟨settlement.trades.map (fun t => t.order_id), settlement, gas_cost, surplus, 0⟩
        some sol.calculate_score

/-- solver/engine.rs, SolverEngine::solve.  A settlement validation failure
is surfaced as a typed error; otherwise the candidate solution is returned
exactly when it passes the profitability gate. -/
def solver_solve (cfg : SolverConfig) (now : Nat) (cp : Order → Order → Nat)
    (orders : List Order) : Except String (Option Solution) :=
  let valid_orders := validate_orders now orders
  if valid_orders.isEmpty then .ok none
  else
    let ms := find_cow_matches cfg valid_orders
    if ms.isEmpty then .ok none
    else
      let settlement := build_settlement cp valid_orders ms
      match settlement.validate with
      | .error e => .error ("Settlement failed: " ++ e)
      | .ok _ =>
        let gas_cost := settlement.estimate_gas
        let surplus := calculate_surplus valid_orders settlement
        let sol : Solution :=
          ⟨settlement.trades.map (fun t => t.order_id), settlement, gas_cost, surplus, 0⟩
        let sol := sol.calculate_score
        if sol.is_profitable cfg.min_profit_threshold then .ok (some sol)
        else .ok none

/-! ## solver/routing.rs : graph search -/

/-- solver/routing.rs, struct RoutingEngine.  The pool_index map is derived
from the pool list on demand (add_pool keeps it in sync with the list). -/
structure RoutingEngine where
  pools : List LiquidityPool
  max_hops : Nat
  max_price_impact : ℚ

/-- Placeholder pool used for (in-range) list indexing. -/
def dummy_pool : LiquidityPool :=
  ⟨0, .UniswapV2, 0, 0, 0, 0, 0, 0⟩

/-- Append an index under a key of the pool index, as HashMap entry().push
does in RoutingEngine::add_pool. -/
def pool_index_insert (m : List ((Address × Address) × List Nat))
    (k : Address × Address) (i : Nat) : List ((Address × Address) × List Nat) :=
  match m with
  | [] => [(k, [i])]
  | (k0, l) :: rest =>
    if k0 = k then (k0, l ++ [i]) :: rest
    else (k0, l) :: pool_index_insert rest k i

/-- The pool_index built by the successive add_pool calls: each pool is
registered under both ordered token pairs. -/
def build_pool_index (pools : List LiquidityPool) :
    List ((Address × Address) × List Nat) :=
  pools.enum.foldl (fun m ip =>
    pool_index_insert
      (pool_index_insert m (ip.2.token_a, ip.2.token_b) ip.1)
      (ip.2.token_b, ip.2.token_a) ip.1) []

/-- pool_index.get on the derived index. -/
def pool_index_get (m : List ((Address × Address) × List Nat))
    (k : Address × Address) : Option (List Nat) :=
  (m.find? (fun kv => kv.1 == k)).map (fun kv => kv.2)

/-- Append a neighbor under a key, as HashMap entry().push does in
RoutingEngine::build_token_graph. -/
def graph_insert (g : List (Address × List Address)) (k v : Address) :
    List (Address × List Address) :=
  match g with
  | [] => [(k, [v])]
  | (k0, l) :: rest =>
    if k0 = k then (k0, l ++ [v]) :: rest
    else (k0, l) :: graph_insert rest k v

/-- solver/routing.rs, RoutingEngine::build_token_graph: undirected token
adjacency induced by the pools. -/
def build_token_graph (pools : List LiquidityPool) : List (Address × List Address) :=
  pools.foldl (fun g p => graph_insert (graph_insert g p.token_a p.token_b) p.token_b p.token_a) []

/-- graph.get, with a missing key giving no neighbors. -/
def graph_lookup (g : List (Address × List Address)) (k : Address) : List Address :=
  ((g.find? (fun kv => kv.1 == k)).map (fun kv => kv.2)).getD []

/-- Bound on the number of worklist items a single step can push: the total
neighbor count of the graph. -/
def neighbor_budget (g : List (Address × List Address)) : Nat :=
  (g.map (fun e => e.2.length)).sum

/-- Weight of a worklist item for the termination measure of the path
search. -/
def path_weight (b max_depth : Nat) (p : List Address) : Nat :=
  (b + 1) ^ (max_depth + 1 - p.length)

theorem graph_lookup_length_le (g : List (Address × List Address)) (k : Address) :
    (graph_lookup g k).length ≤ neighbor_budget g := by
  induction g with
  | nil => simp [graph_lookup, neighbor_budget]
  | cons e rest ih =>
    by_cases h : e.1 == k
    · simp [graph_lookup, neighbor_budget, List.find?, h]
    · simpa [graph_lookup, neighbor_budget, List.find?, h] using
        ih.trans (Nat.le_add_left _ _)

theorem sum_map_const_weight {α : Type} (l : List α) (w : Nat) (f : α → Nat)
    (hf : ∀ x ∈ l, f x = w) : (l.map f).sum = l.length * w := by
  induction l with
  | nil => simp
  | cons x rest ih =>
    have hx := hf x (by simp)
    have hrest : ∀ y ∈ rest, f y = w := fun y hy => hf y (by simp [hy])
    simp [hx, ih hrest, Nat.succ_mul, Nat.add_comm]

theorem paths_step_decreasing (g : List (Address × List Address))
    (max_depth : Nat) (c : Address) (p : List Address) (r : Nat)
    (hlen : p.length ≤ max_depth) :
    (List.map ((fun it => path_weight (neighbor_budget g) max_depth it.2) ∘
        fun n => (n, p ++ [n]))
      ((graph_lookup g c).filter (fun n => ¬ p.contains n))).sum + r <
    path_weight (neighbor_budget g) max_depth p + r := by
  apply Nat.add_lt_add_right
  have hconst :
      ∀ n ∈ (graph_lookup g c).filter (fun n => ¬ p.contains n),
        ((fun it => path_weight (neighbor_budget g) max_depth it.2) ∘
          fun n => (n, p ++ [n])) n =
        (neighbor_budget g + 1) ^ (max_depth - p.length) := by
    intro n _
    simp only [Function.comp, path_weight, List.length_append, List.length_cons,
      List.length_nil]
    congr 1
    omega
  rw [sum_map_const_weight _ _ _ hconst]
  have hnb : ((graph_lookup g c).filter
      (fun n => ¬ p.contains n)).length ≤ neighbor_budget g :=
    (List.length_filter_le _ _).trans (graph_lookup_length_le g c)
  calc ((graph_lookup g c).filter (fun n => ¬ p.contains n)).length *
        (neighbor_budget g + 1) ^ (max_depth - p.length)
      ≤ neighbor_budget g * (neighbor_budget g + 1) ^ (max_depth - p.length) :=
        Nat.mul_le_mul_right _ hnb
    _ < (neighbor_budget g + 1) * (neighbor_budget g + 1) ^ (max_depth - p.length) :=
        (Nat.mul_lt_mul_right (Nat.pos_pow_of_pos _ (Nat.succ_pos _))).mpr
          (Nat.lt_succ_self _)
    _ = (neighbor_budget g + 1) ^ (max_depth - p.length + 1) := by
        rw [Nat.pow_succ, Nat.mul_comm]
    _ = path_weight (neighbor_budget g) max_depth p := by
        simp only [path_weight]
        congr 1
        omega

set_option linter.unusedVariables false in
/-- solver/routing.rs, RoutingEngine::find_paths_bfs: worklist enumeration of
simple token paths from start to end whose token count stays within
max_depth.  The Rust Vec is pushed and popped at its back, so the worklist is
a stack; the embedding keeps the stack top at the head of the list, pushing
fresh items in reverse to preserve pop order. -/
def paths_loop (g : List (Address × List Address)) (endT : Address)
    (max_depth : Nat) : List (Address × List Address) → List (List Address)
  | [] => []
  | (current, path) :: rest =>
    if path.length > max_depth then
      paths_loop g endT max_depth rest
    else if current = endT ∧ path.length > 1 then
      path :: paths_loop g endT max_depth rest
    else
      let nbrs := (graph_lookup g current).filter (fun n => ¬ path.contains n)
      let new_items := nbrs.map (fun n => (n, path ++ [n]))
      paths_loop g endT max_depth (new_items.reverse ++ rest)
termination_by q => (q.map (fun it => path_weight (neighbor_budget g) max_depth it.2)).sum
decreasing_by
  · simp only [List.map_cons, List.sum_cons]
    exact Nat.lt_add_of_pos_left (Nat.pos_pow_of_pos _ (Nat.succ_pos _))
  · simp only [List.map_cons, List.sum_cons]
    exact Nat.lt_add_of_pos_left (Nat.pos_pow_of_pos _ (Nat.succ_pos _))
  · rename_i hle hne
    simp only [List.map_cons, List.sum_cons, List.map_append, List.sum_append,
      List.map_reverse, List.sum_reverse, List.map_map]
    exact paths_step_decreasing _ _ _ _ _ (Nat.le_of_not_lt hle)

/-- solver/routing.rs, RoutingEngine::find_paths_bfs entry point. -/
def find_paths_bfs (g : List (Address × List Address)) (start endT : Address)
    (max_depth : Nat) : List (List Address) :=
  paths_loop g endT max_depth [(start, [start])]

/-- solver/routing.rs, RoutingEngine::calculate_price_impact: amount over the
in-reserve as a percentage, capped at 100, with 100 on a zero reserve. -/
def calculate_price_impact (pool : LiquidityPool) (token_in : Address)
    (amount_in : Nat) : ℚ :=
  let rs :=
    if token_in = pool.token_a then (pool.reserve_a, pool.reserve_b)
    else (pool.reserve_b, pool.reserve_a)
  if rs.1 = 0 then 100
  else min ((amount_in : ℚ) / (rs.1 : ℚ) * 100) 100

/-- solver/routing.rs, RoutingEngine::calculate_route_score. -/
def calculate_route_score (output_amount gas_cost : Nat) (price_impact : ℚ) : ℚ :=
  let output_score := (output_amount : ℚ) / 10 ^ 18
  let gas_penalty := (gas_cost : ℚ) / 10 ^ 6
  let impact_penalty := price_impact / 100
  output_score - gas_penalty - impact_penalty

/-- solver/routing.rs, struct Route. -/
structure Route where
  pools : List LiquidityPool
  path : List Address
  output_amount : Nat
  gas_cost : Nat
  price_impact : ℚ
  score : ℚ

/-- One iteration of the best-pool loop of RoutingEngine::find_direct_route. -/
def direct_route_step (eng : RoutingEngine) (token_in token_out : Address)
    (amount_in : Nat) (best : Option Route) (pool_idx : Nat) : Option Route :=
  let pool := eng.pools.getD pool_idx dummy_pool
  let output_amount := calculate_output pool token_in amount_in
  if output_amount = 0 then best
  else
    let price_impact := calculate_price_impact pool token_in amount_in
    let score := calculate_route_score output_amount pool.gas_cost price_impact
    let route : Route :=
      ⟨[pool], [token_in, token_out], output_amount, pool.gas_cost, price_impact, score⟩
    match best with
    | none => some route
    | some b => if b.score < route.score then some route else some b

/-- solver/routing.rs, RoutingEngine::find_direct_route: over the pools
indexed under (token_in, token_out), keep the best-scoring single-pool route
with non-zero output. -/
def find_direct_route (eng : RoutingEngine) (token_in token_out : Address)
    (amount_in : Nat) : Option Route :=
  match pool_index_get (build_pool_index eng.pools) (token_in, token_out) with
  | none => none
  | some pool_indices =>
    pool_indices.foldl (direct_route_step eng token_in token_out amount_in) none

/-- One iteration of the best-pool-per-hop loop of
RoutingEngine::evaluate_path: keep the pool with the strictly largest output
for the carry amount. -/
def best_pool_step (eng : RoutingEngine) (tin : Address) (amount : Nat)
    (acc : Option LiquidityPool × Nat) (pool_idx : Nat) :
    Option LiquidityPool × Nat :=
  let pool := eng.pools.getD pool_idx dummy_pool
  let output := calculate_output pool tin amount
  if acc.2 < output then (some pool, output) else acc

/-- The hop loop of RoutingEngine::evaluate_path: for each consecutive token
pair pick the pool with the largest output for the current carry amount,
fail when the hop has no pool or only zero outputs, and accumulate pools,
gas and price impact. -/
def eval_hops (eng : RoutingEngine) :
    Address → List Address → Nat → Option (List LiquidityPool × Nat × Nat × ℚ)
  | _, [], amount => some ([], amount, 0, 0)
  | tin, tout :: rest2, amount =>
    match pool_index_get (build_pool_index eng.pools) (tin, tout) with
    | none => none
    | some pool_indices =>
      let best := pool_indices.foldl (best_pool_step eng tin amount)
        ((none : Option LiquidityPool), 0)
      match best.1 with
      | none => none
      | some pool =>
        if best.2 = 0 then none
        else
          match eval_hops eng tout rest2 best.2 with
          | none => none
          | some (pools, out, gas, impact) =>
            some (pool :: pools, out, pool.gas_cost + gas,
              calculate_price_impact pool tin amount + impact)

/-- solver/routing.rs, RoutingEngine::evaluate_path. -/
def evaluate_path (eng : RoutingEngine) (path : List Address) (amount_in : Nat) :
    Option Route :=
  if path.length < 2 then none
  else
    match path with
    | [] => none
    | t0 :: rest =>
      match eval_hops eng t0 rest amount_in with
      | none => none
      | some (pools, current_amount, total_gas, total_impact) =>
        some ⟨pools, path, current_amount, total_gas, total_impact,
          calculate_route_score current_amount total_gas total_impact⟩

/-- solver/routing.rs, RoutingEngine::find_multi_hop_routes. -/
def find_multi_hop_routes (eng : RoutingEngine) (token_in token_out : Address)
    (amount_in : Nat) : List Route :=
  let g := build_token_graph eng.pools
  let paths := find_paths_bfs g token_in token_out eng.max_hops
  paths.filterMap (fun p => evaluate_path eng p amount_in)

/-- solver/routing.rs, RoutingEngine::find_all_routes: the direct route, the
multi-hop routes when max_hops exceeds one, filtered by the price-impact
cap. -/
def find_all_routes (eng : RoutingEngine) (token_in token_out : Address)
    (amount_in : Nat) : List Route :=
  let direct :=
    match find_direct_route eng token_in token_out amount_in with
    | none => []
    | some r => [r]
  let routes :=
    if 1 < eng.max_hops then direct ++ find_multi_hop_routes eng token_in token_out amount_in
    else direct
  routes.filter (fun r => decide (r.price_impact ≤ eng.max_price_impact))

/-- One iteration of the max_by fold of RoutingEngine::find_best_route
(Iterator::max_by keeps the last of equally scored maxima). -/
def best_route_step (best : Option Route) (r : Route) : Option Route :=
  match best with
  | none => some r
  | some b => if b.score ≤ r.score then some r else some b

/-- solver/routing.rs, RoutingEngine::find_best_route: the route of maximal
score. -/
def find_best_route (eng : RoutingEngine) (token_in token_out : Address)
    (amount_in : Nat) : Option Route :=
  (find_all_routes eng token_in token_out amount_in).foldl best_route_step none

/-! ## Theorems for the claims -/

/-- C8: Order::validate returns Ok iff sell_amount > 0, buy_amount > 0,
sell_token ≠ buy_token, valid_to > 0, and, whenever both source and
destination chains are present, a bridge provider is also present.  Any
violated condition makes the result an Err (the iff leaves no third
outcome). -/
theorem order_validate_ok_iff (o : Order) :
    o.validate.isOk = true ↔
      (0 < o.sell_amount ∧ 0 < o.buy_amount ∧ o.sell_token ≠ o.buy_token ∧
        0 < o.valid_to ∧
        (o.source_chain.isSome = true ∧ o.destination_chain.isSome = true →
          o.bridge_provider.isSome = true)) := by
  unfold Order.validate Order.is_cross_chain
  split_ifs with h1 h2 h3 h4 h5 h6 h7 <;>
    simp_all [Except.isOk, Except.toBool, Nat.pos_iff_ne_zero,
      Option.isNone_iff_eq_none, Option.isSome_iff_ne_none]

/-- C9: for TokenAmounts with matching decimals, adding then subtracting
returns the first operand; checked_div by a non-zero scalar is floor
division (characterised by the euclidean bounds); checked_add and
checked_mul return none exactly on overflow and checked_div by zero returns
none. -/
theorem token_amount_arithmetic (a b : TokenAmount)
    (hdec : a.decimals = b.decimals) (k : Nat) :
    (∀ s, a.checked_add b = some s → s.checked_sub b = some a) ∧
    (a.checked_add b = none ↔ U256MOD ≤ a.raw + b.raw) ∧
    (k ≠ 0 → a.checked_div k = some ⟨a.raw / k, a.decimals⟩ ∧
      k * (a.raw / k) ≤ a.raw ∧ a.raw < k * (a.raw / k) + k) ∧
    a.checked_div 0 = none ∧
    (a.checked_mul k = none ↔ U256MOD ≤ a.raw * k) := by
  refine ⟨?_, ?_, ?_, ?_, ?_⟩
  · intro s hs
    unfold TokenAmount.checked_add at hs
    rw [if_neg (by simp [hdec])] at hs
    by_cases hov : a.raw + b.raw < U256MOD
    · rw [if_pos hov] at hs
      cases hs
      unfold TokenAmount.checked_sub
      rw [if_neg (by simp [hdec])]
      rw [if_pos (Nat.le_add_left _ _)]
      simp
    · rw [if_neg hov] at hs
      cases hs
  · unfold TokenAmount.checked_add
    rw [if_neg (by simp [hdec])]
    by_cases hov : a.raw + b.raw < U256MOD
    · simp [hov, Nat.not_le_of_lt hov]
    · simp [hov, Nat.le_of_not_lt hov]
  · intro hk
    unfold TokenAmount.checked_div
    rw [if_neg hk]
    refine ⟨rfl, Nat.mul_div_le _ _, ?_⟩
    have hmod := Nat.div_add_mod a.raw k
    have hlt := Nat.mod_lt a.raw (Nat.pos_of_ne_zero hk)
    omega
  · unfold TokenAmount.checked_div
    simp
  · unfold TokenAmount.checked_mul
    by_cases hov : a.raw * k < U256MOD
    · simp [hov, Nat.not_le_of_lt hov]
    · simp [hov, Nat.le_of_not_lt hov]

/-- C9 witness: the theorem applied to concrete amounts: 100 + 50 − 50
returns 100 at 18 decimals, and 100 divided by 3 floors to 33. -/
theorem token_amount_arithmetic_witness :
    TokenAmount.checked_sub ⟨150, 18⟩ ⟨50, 18⟩ = some ⟨100, 18⟩ ∧
    TokenAmount.checked_div ⟨100, 18⟩ 3 = some ⟨33, 18⟩ := by
  constructor
  · exact (token_amount_arithmetic ⟨100, 18⟩ ⟨50, 18⟩ rfl 3).1 ⟨150, 18⟩ (by decide)
  · exact ((token_amount_arithmetic ⟨100, 18⟩ ⟨50, 18⟩ rfl 3).2.2.1 (by decide)).1

/-- C6 counterexample: at reserves (100000, 100000), fee 30 bps and
amount_in 1000, both constant-product implementations compute 987 (the
1 percent price impact of the trade pushes the output below the fee-only
approximation), and 987 is not strictly between 994 and 997. -/
theorem amm_s4_output_not_between_994_997 :
    calculate_amm_output 1000 100000 100000 30 = some 987 ∧
    calculate_constant_product_output 1000 100000 100000 30 = 987 ∧
    ¬ ((994 : Nat) < 987 ∧ (987 : Nat) < 997) := by
  refine ⟨by decide, by decide, by decide⟩

/-- C6 amended: at reserves (100000, 100000), fee 30 bps and amount_in 1000
the computed AMM output equals 987, strictly between 986 and 988. -/
theorem amm_s4_output_value :
    calculate_amm_output 1000 100000 100000 30 = some 987 ∧
    calculate_constant_product_output 1000 100000 100000 30 = 987 ∧
    (986 : Nat) < 987 ∧ (987 : Nat) < 988 := by
  refine ⟨by decide, by decide, by decide, by decide⟩

/-- C1 counterexample: the claim quantifies over every non-zero amount_in,
R_in and R_out, but at amount_in = 2^250, R_in = 1, R_out = 2^250 (all
non-zero U256 values, fee 30 bps) the unchecked multiplication
amount_in * (10000 - fee) overflows a U256 and routing.rs panics instead of
producing the floor value: the panic-aware model returns none, not the
claimed quotient. -/
theorem routing_per_hop_overflow_counterexample :
    calculate_constant_product_output_checked (2 ^ 250) 1 (2 ^ 250) 30 = none ∧
    (2 ^ 250 : Nat) ≠ 0 ∧ (1 : Nat) ≠ 0 := by
  refine ⟨by decide, by decide, by decide⟩

/-- C1 (amended): for every pool whose variant is ConstantProduct,
UniswapV2, UniswapV3 or Balancer (that is, every variant but Curve), with
non-zero amount_in, in-reserve and out-reserve, PROVIDED the unchecked U256
products of the source do not overflow
(amount_in * (10000 - fee) * R_out < 2^256 and
R_in * 10000 + amount_in * (10000 - fee) < 2^256), the per-hop computation
returns a value and that value equals the floor of
amount_in * (10000 - fee) * R_out / (R_in * 10000 + amount_in * (10000 - fee));
without those bounds the code panics (see the counterexample). -/
theorem routing_per_hop_constant_product (pool : LiquidityPool)
    (token_in : Address) (amount_in r_in r_out : Nat)
    (hpt : pool.pool_type ≠ PoolType.Curve)
    (hdir : (if token_in = pool.token_a then (pool.reserve_a, pool.reserve_b)
             else (pool.reserve_b, pool.reserve_a)) = (r_in, r_out))
    (ha : amount_in ≠ 0) (hin : r_in ≠ 0) (hout : r_out ≠ 0)
    (hov1 : amount_in * (10000 - pool.fee_bps) * r_out < U256MOD)
    (hov2 : r_in * 10000 + amount_in * (10000 - pool.fee_bps) < U256MOD) :
    calculate_constant_product_output_checked amount_in r_in r_out pool.fee_bps =
      some (amount_in * (10000 - pool.fee_bps) * r_out /
        (r_in * 10000 + amount_in * (10000 - pool.fee_bps))) ∧
    calculate_output pool token_in amount_in =
      amount_in * (10000 - pool.fee_bps) * r_out /
        (r_in * 10000 + amount_in * (10000 - pool.fee_bps)) := by
  have hden : r_in * 10000 + amount_in * (10000 - pool.fee_bps) ≠ 0 :=
    Nat.ne_of_gt (Nat.lt_of_lt_of_le
      (Nat.mul_pos (Nat.pos_of_ne_zero hin) (by norm_num))
      (Nat.le_add_right _ _))
  constructor
  · unfold calculate_constant_product_output_checked
    rw [if_neg (by simp [ha, hin, hout])]
    dsimp only []
    have h1 : amount_in * (10000 - pool.fee_bps) < U256MOD :=
      Nat.lt_of_le_of_lt
        (Nat.le_mul_of_pos_right _ (Nat.pos_of_ne_zero hout)) hov1
    have h3 : r_in * 10000 < U256MOD :=
      Nat.lt_of_le_of_lt (Nat.le_add_right _ _) hov2
    rw [if_neg (not_le.mpr h1), if_neg (not_le.mpr hov1),
      if_neg (not_le.mpr h3), if_neg (not_le.mpr hov2), if_neg hden]
  · have hcp : calculate_constant_product_output amount_in r_in r_out pool.fee_bps =
        amount_in * (10000 - pool.fee_bps) * r_out /
          (r_in * 10000 + amount_in * (10000 - pool.fee_bps)) := by
      unfold calculate_constant_product_output
      rw [if_neg (by simp [ha, hin, hout])]
      dsimp only []
      rw [if_neg hden]
    unfold calculate_output
    rw [hdir]
    cases hp : pool.pool_type <;> simp_all

/-- C1 witness: the theorem applied to a concrete UniswapV2 pool with
reserves (100000, 100000), fee 30 bps and amount_in 1000, whose products
stay far below 2^256. -/
theorem routing_per_hop_constant_product_witness :
    calculate_constant_product_output_checked 1000 100000 100000 30 =
      some (1000 * (10000 - 30) * 100000 /
        (100000 * 10000 + 1000 * (10000 - 30))) ∧
    calculate_output ⟨0, .UniswapV2, 1, 2, 100000, 100000, 30, 100000⟩ 1 1000 =
      1000 * (10000 - 30) * 100000 / (100000 * 10000 + 1000 * (10000 - 30)) :=
  routing_per_hop_constant_product ⟨0, .UniswapV2, 1, 2, 100000, 100000, 30, 100000⟩
    1 1000 100000 100000 (by decide) (by decide) (by decide) (by decide) (by decide)
    (by decide) (by decide)

/-- C10 counterexample: the two constant-product implementations disagree.
math::calculate_amm_output floors the fee multiplication by 10000 before the
swap formula, while the routing implementation keeps the product exact: at
amount_in 1, reserves (1, 10000), fee 30 bps the former returns 0 and the
latter 4992. -/
theorem amm_implementations_disagree :
    calculate_amm_output 1 1 10000 30 = some 0 ∧
    calculate_constant_product_output 1 1 10000 30 = 4992 ∧ (0 : Nat) ≠ 4992 := by
  refine ⟨by decide, by decide, by decide⟩

/-- C10 amended: whenever math::calculate_amm_output returns a value AND
10000 divides amount_in * (10000 - fee), the routing engine computes the
same value.  The two extra bounds state that the U256 multiplications of the
routing implementation do not overflow, so the Rust code does not panic on
these inputs. -/
theorem amm_implementations_agree_when_divisible
    (amount_in reserve_in reserve_out fee_bps v : Nat)
    (hdvd : 10000 ∣ amount_in * (10000 - fee_bps))
    (hnum : amount_in * (10000 - fee_bps) * reserve_out < U256MOD)
    (hden : reserve_in * 10000 + amount_in * (10000 - fee_bps) < U256MOD)
    (hv : calculate_amm_output amount_in reserve_in reserve_out fee_bps = some v) :
    calculate_constant_product_output amount_in reserve_in reserve_out fee_bps = v := by
  unfold calculate_amm_output at hv
  by_cases hz : reserve_in = 0 ∨ reserve_out = 0
  · rw [if_pos hz] at hv
    cases hv
  rw [if_neg hz] at hv
  push_neg at hz
  obtain ⟨hin, hout⟩ := hz
  dsimp only [] at hv
  split_ifs at hv with hov1 hov2 hov3 hd
  cases hv
  obtain ⟨q, hq⟩ := hdvd
  have hfe : amount_in * (10000 - fee_bps) / 10000 = q := by
    rw [hq]
    exact Nat.mul_div_cancel_left q (by norm_num)
  rw [hfe]
  by_cases hA : amount_in = 0
  · subst hA
    have hq0 : q = 0 := by
      simp only [Nat.zero_mul] at hq
      omega
    subst hq0
    simp [calculate_constant_product_output]
  · unfold calculate_constant_product_output
    rw [if_neg (by simp [hA, hin, hout])]
    have hden0 : reserve_in * 10000 + amount_in * (10000 - fee_bps) ≠ 0 :=
      Nat.ne_of_gt (Nat.lt_of_lt_of_le
        (Nat.mul_pos (Nat.pos_of_ne_zero hin) (by norm_num))
        (Nat.le_add_right _ _))
    dsimp only []
    rw [if_neg hden0]
    rw [hq]
    calc 10000 * q * reserve_out / (reserve_in * 10000 + 10000 * q)
        = 10000 * (q * reserve_out) / (10000 * (reserve_in + q)) := by
          congr 1 <;> ring
      _ = q * reserve_out / (reserve_in + q) :=
          Nat.mul_div_mul_left _ _ (by norm_num)

/-- C10 amended witness: at amount_in 5, reserves (7, 11) and zero fee the
divisibility condition holds and both implementations return 4. -/
theorem amm_implementations_agree_witness :
    calculate_constant_product_output 5 7 11 0 = 4 :=
  amm_implementations_agree_when_divisible 5 7 11 0 4
    (by decide) (by decide) (by decide) (by decide)

/-- A pricing engine with min_confidence 0, as validate_prices reads it. -/
def peng_c5 : PricingEngine := ⟨.MidPoint, [], 0⟩

/-- An order selling 2^200 of token 1 for 1 of token 2. -/
def big_order : Order :=
  ⟨9, 0, 1, 2, 2 ^ 200, 1, 100, 0, .Sell, false, .Open, none, none, none⟩

/-- Clearing prices pricing token 1 at 2^60 and token 2 at 1, both with
confidence 1. -/
def big_prices : List (Address × ClearingPrice) :=
  [(1, ⟨1, 2 ^ 60, 1⟩), (2, ⟨2, 1, 1⟩)]

/-- C5 counterexample: at big_order every Ok-condition of the claim holds
(both tokens priced, confidences 1 at least min_confidence 0, and
sell_amount * sell_price = 2^260 covers buy_amount * buy_price = 1), yet
validate_prices yields neither Ok nor an Err: the unchecked U256
multiplication 2^200 * 2^60 overflows and pricing.rs panics, modelled as
none. -/
theorem validate_prices_overflow_counterexample :
    validate_prices peng_c5 big_prices [big_order] = none ∧
    price_lookup big_prices big_order.sell_token = some ⟨1, 2 ^ 60, 1⟩ ∧
    price_lookup big_prices big_order.buy_token = some ⟨2, 1, 1⟩ ∧
    peng_c5.min_confidence ≤ (1 : ℚ) ∧
    big_order.buy_amount * 1 ≤ big_order.sell_amount * 2 ^ 60 := by
  refine ⟨?_, rfl, rfl, by norm_num [peng_c5], by decide⟩
  rfl

/-- C5 (amended): provided no sell-value or buy-value product overflows a
U256 (the source multiplies unchecked and panics otherwise, modelled as
none), validate_prices returns a verdict, and the verdict is Ok iff for
every order both its tokens carry a clearing price, both prices have
confidence at least min_confidence, and
sell_amount * sell_price covers buy_amount * buy_price; by the iff, any
violation yields the diagnostic Err built at the first failing check. -/
theorem validate_prices_ok_iff (eng : PricingEngine)
    (prices : List (Address × ClearingPrice)) (orders : List Order)
    (hovs : ∀ o ∈ orders, ∀ sp, price_lookup prices o.sell_token = some sp →
      o.sell_amount * sp.price < U256MOD)
    (hovb : ∀ o ∈ orders, ∀ bp, price_lookup prices o.buy_token = some bp →
      o.buy_amount * bp.price < U256MOD) :
    (validate_prices eng prices orders).isSome = true ∧
    (validate_prices eng prices orders = some (Except.ok ()) ↔
      ∀ o ∈ orders, ∃ sp bp,
        price_lookup prices o.sell_token = some sp ∧
        price_lookup prices o.buy_token = some bp ∧
        eng.min_confidence ≤ sp.confidence ∧
        eng.min_confidence ≤ bp.confidence ∧
        o.buy_amount * bp.price ≤ o.sell_amount * sp.price) := by
  induction orders with
  | nil =>
    exact ⟨rfl, by simp [validate_prices]⟩
  | cons o rest ih =>
    have ihr := ih
      (fun o2 ho2 sp hsp => hovs o2 (List.mem_cons_of_mem _ ho2) sp hsp)
      (fun o2 ho2 bp hbp => hovb o2 (List.mem_cons_of_mem _ ho2) bp hbp)
    unfold validate_prices
    cases hs : price_lookup prices o.sell_token with
    | none =>
      refine ⟨rfl, ?_⟩
      constructor
      · intro h
        simp at h
      · intro h
        obtain ⟨sp2, _, hsp2, _⟩ := h o (List.mem_cons_self _ _)
        rw [hs] at hsp2
        cases hsp2
    | some sp =>
      cases hb : price_lookup prices o.buy_token with
      | none =>
        refine ⟨rfl, ?_⟩
        constructor
        · intro h
          simp at h
        · intro h
          obtain ⟨sp2, bp2, hsp2, hbp2, _⟩ := h o (List.mem_cons_self _ _)
          rw [hb] at hbp2
          cases hbp2
      | some bp =>
        have hso : o.sell_amount * sp.price < U256MOD :=
          hovs o (List.mem_cons_self _ _) sp hs
        have hbo : o.buy_amount * bp.price < U256MOD :=
          hovb o (List.mem_cons_self _ _) bp hb
        dsimp only []
        split_ifs with hc1 hc2 ho1 ho2 hval
        · refine ⟨rfl, ?_⟩
          constructor
          · intro h
            simp at h
          · intro h
            obtain ⟨sp2, bp2, hsp2, hbp2, hcsp2, _, _⟩ :=
              h o (List.mem_cons_self _ _)
            rw [hs] at hsp2
            cases hsp2
            exact absurd hcsp2 (not_le.mpr hc1)
        · refine ⟨rfl, ?_⟩
          constructor
          · intro h
            simp at h
          · intro h
            obtain ⟨sp2, bp2, hsp2, hbp2, _, hcbp2, _⟩ :=
              h o (List.mem_cons_self _ _)
            rw [hb] at hbp2
            cases hbp2
            exact absurd hcbp2 (not_le.mpr hc2)
        · exact absurd hso (not_lt.mpr ho1)
        · exact absurd hbo (not_lt.mpr ho2)
        · refine ⟨rfl, ?_⟩
          constructor
          · intro h
            simp at h
          · intro h
            obtain ⟨sp2, bp2, hsp2, hbp2, _, _, hle⟩ :=
              h o (List.mem_cons_self _ _)
            rw [hs] at hsp2
            rw [hb] at hbp2
            cases hsp2
            cases hbp2
            exact absurd hle (not_le.mpr hval)
        · refine ⟨ihr.1, ?_⟩
          rw [ihr.2]
          constructor
          · intro h o2 ho2
            rcases List.mem_cons.mp ho2 with rfl | hmem
            · exact ⟨sp, bp, hs, hb, le_of_not_lt hc1, le_of_not_lt hc2,
                le_of_not_lt hval⟩
            · exact h o2 hmem
          · intro h o2 ho2
            exact h o2 (List.mem_cons_of_mem _ ho2)

/-- An order selling 1000 of token 1 for 2000 of token 2 (its sell value
1000 * 2 = 2000 exactly covers its buy value 2000 * 1). -/
def order_w : Order :=
  ⟨7, 0, 1, 2, 1000, 2000, 100, 0, .Sell, false, .Open, none, none, none⟩

/-- Clearing prices pricing token 1 at 2 and token 2 at 1, confidence 1. -/
def px_w : List (Address × ClearingPrice) :=
  [(1, ⟨1, 2, 1⟩), (2, ⟨2, 1, 1⟩)]

/-- C5 witness: the theorem applied to a concrete engine, price map and
single order whose products stay far below 2^256: the verdict exists and is
Ok. -/
theorem validate_prices_ok_iff_witness :
    validate_prices peng_c5 px_w [order_w] = some (Except.ok ()) := by
  refine (validate_prices_ok_iff peng_c5 px_w [order_w] ?_ ?_).2.mpr ?_
  · intro o ho sp hsp
    rw [List.mem_singleton] at ho
    subst ho
    rw [show price_lookup px_w order_w.sell_token = some ⟨1, 2, 1⟩ from rfl] at hsp
    cases hsp
    decide
  · intro o ho bp hbp
    rw [List.mem_singleton] at ho
    subst ho
    rw [show price_lookup px_w order_w.buy_token = some ⟨2, 1, 1⟩ from rfl] at hbp
    cases hbp
    decide
  · intro o ho
    rw [List.mem_singleton] at ho
    subst ho
    exact ⟨⟨1, 2, 1⟩, ⟨2, 1, 1⟩, rfl, rfl, by norm_num [peng_c5],
      by norm_num [peng_c5], by decide⟩

/-- C4: the gas estimate of a settlement is
21000 + 50000 per trade + 100000 per interaction + 150000 per post-hook;
the score of a solution is its surplus minus the gas cost scaled by 1e-9;
and the orchestrator returns a solution exactly when the pipeline produced
that candidate and its score reaches min_profit_threshold (in every other
case it returns no solution or a typed error). -/
theorem gas_score_and_profitability_gate :
    (∀ s : SettlementPlan, s.estimate_gas =
      21000 + 50000 * s.trades.length + 100000 * s.interactions.length +
        150000 * s.post_hooks.length) ∧
    (∀ sol : Solution, sol.calculate_score.score =
      sol.surplus - (sol.gas_cost : ℚ) / 10 ^ 9) ∧
    (∀ (cfg : SolverConfig) (now : Nat) (cp : Order → Order → Nat)
        (orders : List Order) (sol : Solution),
      solver_solve cfg now cp orders = .ok (some sol) ↔
        (solve_candidate cfg now cp orders = some sol ∧
          cfg.min_profit_threshold ≤ sol.score)) := by
  refine ⟨?_, ?_, ?_⟩
  · intro s
    unfold SettlementPlan.estimate_gas
    ring
  · intro sol
    rfl
  · intro cfg now cp orders sol
    unfold solver_solve solve_candidate
    dsimp only []
    set vo := validate_orders now orders with hvo
    set ms := find_cow_matches cfg vo with hms
    set st := build_settlement cp vo ms with hst
    by_cases hvalid : vo.isEmpty = true
    · rw [if_pos hvalid, if_pos hvalid]
      simp
    · rw [if_neg hvalid, if_neg hvalid]
      by_cases hmatch : ms.isEmpty = true
      · rw [if_pos hmatch, if_pos hmatch]
        simp
      · rw [if_neg hmatch, if_neg hmatch]
        cases hval : st.validate with
        | error e => simp
        | ok u =>
          set cand : Solution := Solution.calculate_score
            ⟨st.trades.map (fun t => t.order_id), st, st.estimate_gas,
              calculate_surplus vo st, 0⟩ with hcand
          by_cases hprof : cand.is_profitable cfg.min_profit_threshold = true
          · rw [if_pos hprof]
            unfold Solution.is_profitable at hprof
            simp only [decide_eq_true_eq] at hprof
            simp only [Option.some.injEq, Except.ok.injEq]
            constructor
            · intro h
              exact ⟨h, h ▸ hprof⟩
            · intro h
              exact h.1
          · rw [if_neg hprof]
            unfold Solution.is_profitable at hprof
            simp only [decide_eq_true_eq, not_le] at hprof
            simp only [Except.ok.injEq]
            constructor
            · intro h
              cases h
            · intro h
              obtain ⟨hsol, hsc⟩ := h
              injection hsol with hsol
              exact absurd hsc (not_le.mpr (hsol ▸ hprof))

theorem select_aux_eq_spec (l : List OrderMatch) :
    ∀ (used : List OrderId) (acc : List OrderMatch),
      (∀ oid, oid ∈ used ↔ ∃ p ∈ acc, oid ∈ p.orders) →
      select_optimal_matches_aux used l = select_disjoint_spec acc l := by
  induction l with
  | nil =>
    intro used acc _
    rfl
  | cons m rest ih =>
    intro used acc h
    unfold select_optimal_matches_aux select_disjoint_spec
    have hcond : (m.orders.any (fun oid => used.contains oid) = true) ↔
        ¬ (∀ oid ∈ m.orders, ∀ p ∈ acc, oid ∉ p.orders) := by
      rw [List.any_eq_true]
      push_neg
      constructor
      · rintro ⟨x, hx, hcontains⟩
        have hxu : x ∈ used := by simpa using hcontains
        obtain ⟨p, hp, hxp⟩ := (h x).mp hxu
        exact ⟨x, hx, p, hp, hxp⟩
      · rintro ⟨x, hx, p, hp, hxp⟩
        refine ⟨x, hx, ?_⟩
        simpa using (h x).mpr ⟨p, hp, hxp⟩
    by_cases hc : m.orders.any (fun oid => used.contains oid) = true
    · rw [if_pos hc, if_neg (hcond.mp hc)]
      exact ih used acc h
    · rw [if_neg hc, if_pos (not_not.mp (fun hns => hc (hcond.mpr hns)))]
      congr 1
      apply ih
      intro oid
      constructor
      · intro hmem
        rcases List.mem_append.mp hmem with hu | hm
        · obtain ⟨p, hp, hop⟩ := (h oid).mp hu
          exact ⟨p, by simp [hp], hop⟩
        · exact ⟨m, by simp, hm⟩
      · rintro ⟨p, hp, hop⟩
        rcases List.mem_append.mp hp with hpa | hpm
        · exact List.mem_append.mpr (Or.inl ((h oid).mpr ⟨p, hpa, hop⟩))
        · rw [List.mem_singleton.mp hpm] at hop
          exact List.mem_append.mpr (Or.inr hop)

theorem select_aux_avoids (l : List OrderMatch) :
    ∀ (used : List OrderId) (m : OrderMatch),
      m ∈ select_optimal_matches_aux used l →
      ∀ oid ∈ used, oid ∉ m.orders := by
  induction l with
  | nil =>
    intro used m hm
    simp [select_optimal_matches_aux] at hm
  | cons m0 rest ih =>
    intro used m hm oid hoid
    unfold select_optimal_matches_aux at hm
    by_cases hc : m0.orders.any (fun o => used.contains o) = true
    · rw [if_pos hc] at hm
      exact ih used m hm oid hoid
    · rw [if_neg hc] at hm
      rcases List.mem_cons.mp hm with rfl | hm2
      · intro hoidm
        apply hc
        rw [List.any_eq_true]
        exact ⟨oid, hoidm, by simpa using hoid⟩
      · exact ih (used ++ m0.orders) m hm2 oid (List.mem_append.mpr (Or.inl hoid))

theorem select_aux_pairwise (l : List OrderMatch) :
    ∀ used, List.Pairwise (fun m1 m2 => ∀ oid ∈ m1.orders, oid ∉ m2.orders)
      (select_optimal_matches_aux used l) := by
  induction l with
  | nil =>
    intro used
    exact List.Pairwise.nil
  | cons m0 rest ih =>
    intro used
    unfold select_optimal_matches_aux
    by_cases hc : m0.orders.any (fun o => used.contains o) = true
    · rw [if_pos hc]
      exact ih used
    · rw [if_neg hc]
      refine List.Pairwise.cons ?_ (ih _)
      intro m2 hm2 oid hoid
      exact select_aux_avoids rest (used ++ m0.orders) m2 hm2 oid
        (List.mem_append.mpr (Or.inr hoid))

/-- C2: select_optimal_matches iterates the candidates in the given order
and accepts a match exactly when no order id it mentions appears in a
previously accepted match (it coincides with the selection rule written
that way), and the matches it selects are pairwise disjoint over order
identifiers. -/
theorem select_optimal_matches_greedy_disjoint (ms : List OrderMatch) :
    select_optimal_matches ms = select_disjoint_spec [] ms ∧
    List.Pairwise (fun m1 m2 => ∀ oid ∈ m1.orders, oid ∉ m2.orders)
      (select_optimal_matches ms) := by
  constructor
  · exact select_aux_eq_spec ms [] [] (by simp)
  · exact select_aux_pairwise ms []

/-- Projection used to state the C3 evaluation: the order identifiers of the
trades of a successfully returned solution. -/
def solve_trade_ids (r : Except String (Option Solution)) : Option (List OrderId) :=
  match r with
  | .ok (some sol) => some (sol.settlement.trades.map (fun t => t.order_id))
  | _ => none

/-- A configuration with CoW matching enabled, zero slippage tolerance and a
profit threshold of -1 (the threshold is an arbitrary f64 parameter; a
negative one lets the zero-surplus solution through the gate). -/
def cfg_overlap : SolverConfig :=
  ⟨100, -1, 0, true, true, true, 5000⟩

/-- Order 0: sell 1000 of token 1 for 2000 of token 2. -/
def order_x : Order :=
  ⟨0, 0, 1, 2, 1000, 2000, 100, 0, .Sell, false, .Open, none, none, none⟩

/-- Order 1: sell 2000 of token 2 for 1000 of token 1. -/
def order_y : Order :=
  ⟨1, 0, 2, 1, 2000, 1000, 100, 0, .Sell, false, .Open, none, none, none⟩

/-- Order 2: another sell of 2000 of token 2 for 1000 of token 1. -/
def order_z : Order :=
  ⟨2, 0, 2, 1, 2000, 1000, 100, 0, .Sell, false, .Open, none, none, none⟩

unseal Rat.mul Rat.add Rat.sub Rat.inv in
/-- C3: the orchestrator does NOT settle a non-overlapping subset.  With the
batch [order_x, order_y, order_z], find_cow_matches returns the overlapping
pairs (0, 1) and (0, 2) and build_settlement emits two trades per pair, so
the returned Solution carries the trade order-identifier list [0, 1, 0, 2]:
order id 0 appears in two trades.  (The disjoint greedy selection exists in
MatchingEngine::select_optimal_matches but SolverEngine::solve never invokes
it.) -/
theorem solve_emits_overlapping_trades :
    solve_trade_ids
        (solver_solve cfg_overlap 0 (fun _ _ => 0) [order_x, order_y, order_z]) =
      some [0, 1, 0, 2] ∧
    List.count 0 [0, 1, 0, 2] = 2 := by
  constructor
  · decide
  · rfl

theorem paths_loop_mem_length (g : List (Address × List Address))
    (endT : Address) (max_depth : Nat) (q : List (Address × List Address)) :
    ∀ p ∈ paths_loop g endT max_depth q, 1 < p.length ∧ p.length ≤ max_depth := by
  induction q using paths_loop.induct g endT max_depth with
  | case1 =>
    intro p hp
    simp [paths_loop] at hp
  | case2 k0 l rest hgt ih =>
    intro p hp
    rw [paths_loop, if_pos hgt] at hp
    exact ih p hp
  | case3 k0 l rest hle hend ih =>
    intro p hp
    rw [paths_loop, if_neg hle, if_pos hend] at hp
    rcases List.mem_cons.mp hp with rfl | hp2
    · exact ⟨hend.2, Nat.le_of_not_lt hle⟩
    · exact ih p hp2
  | case4 k0 l rest hle hend nbrs new_items ih =>
    intro p hp
    rw [paths_loop, if_neg hle, if_neg hend] at hp
    exact ih p hp

theorem eval_hops_pools_length (eng : RoutingEngine) :
    ∀ (rest : List Address) (tin : Address) (amount : Nat)
      (res : List LiquidityPool × Nat × Nat × ℚ),
      eval_hops eng tin rest amount = some res → res.1.length = rest.length := by
  intro rest
  induction rest with
  | nil =>
    intro tin amount res h
    unfold eval_hops at h
    cases h
    rfl
  | cons tout rest2 ih =>
    intro tin amount res h
    unfold eval_hops at h
    split at h
    · cases h
    · dsimp only [] at h
      split at h
      · cases h
      · split_ifs at h with hz
        split at h
        · cases h
        · rename_i pools out gas impact heval
          cases h
          have h2 : pools.length = rest2.length := by
            simpa using ih tout _ _ heval
          show pools.length + 1 = rest2.length + 1
          omega

theorem evaluate_path_pools_length (eng : RoutingEngine) (path : List Address)
    (amount_in : Nat) (r : Route)
    (h : evaluate_path eng path amount_in = some r) :
    r.pools.length + 1 = path.length := by
  unfold evaluate_path at h
  split_ifs at h with hlen
  split at h
  · cases h
  · rename_i t0 rest
    split at h
    · cases h
    · rename_i pools camt tgas timpact heval
      cases h
      have h2 : pools.length = rest.length := by
        simpa using eval_hops_pools_length eng rest t0 amount_in _ heval
      show pools.length + 1 = rest.length + 1
      omega

theorem direct_step_single (eng : RoutingEngine) (tin tout : Address)
    (amount : Nat) :
    ∀ (l : List Nat) (acc : Option Route),
      (∀ b, acc = some b → b.pools.length = 1) →
      ∀ r, l.foldl (direct_route_step eng tin tout amount) acc = some r →
        r.pools.length = 1 := by
  intro l
  induction l with
  | nil =>
    intro acc hacc r h
    exact hacc r h
  | cons i rest ih =>
    intro acc hacc r h
    simp only [List.foldl_cons] at h
    refine ih _ ?_ r h
    intro b hb
    unfold direct_route_step at hb
    dsimp only [] at hb
    split_ifs at hb with hz
    · exact hacc b hb
    · split at hb
      · cases hb
        rfl
      · rename_i b0
        split_ifs at hb with hsc
        · cases hb
          rfl
        · cases hb
          exact hacc _ rfl

theorem find_direct_route_single (eng : RoutingEngine) (tin tout : Address)
    (amount : Nat) (r : Route)
    (h : find_direct_route eng tin tout amount = some r) :
    r.pools.length = 1 := by
  unfold find_direct_route at h
  split at h
  · cases h
  · exact direct_step_single eng tin tout amount _ none
      (fun b hb => by cases hb) r h

theorem best_route_foldl_mem :
    ∀ (l : List Route) (acc : Option Route) (r : Route),
      l.foldl best_route_step acc = some r → r ∈ l ∨ acc = some r := by
  intro l
  induction l with
  | nil =>
    intro acc r h
    exact Or.inr h
  | cons x rest ih =>
    intro acc r h
    simp only [List.foldl_cons] at h
    rcases ih (best_route_step acc x) r h with hmem | heq
    · exact Or.inl (List.mem_cons_of_mem _ hmem)
    · unfold best_route_step at heq
      split at heq
      · cases heq
        exact Or.inl (List.mem_cons_self _ _)
      · rename_i b
        split_ifs at heq with hle
        · cases heq
          exact Or.inl (List.mem_cons_self _ _)
        · cases heq
          exact Or.inr rfl

/-- C7 (amended): when max_hops is 1 every route returned by
find_best_route is a direct single-pool route, and for every max_hops of at
least 1 the returned route never contains more pools than max_hops.  (With
max_hops = 0 the engine still returns direct routes, see the
counterexample.) -/
theorem find_best_route_hop_bound (eng : RoutingEngine)
    (token_in token_out : Address) (amount_in : Nat) (r : Route)
    (h : find_best_route eng token_in token_out amount_in = some r) :
    (eng.max_hops = 1 → r.pools.length = 1) ∧
    (1 ≤ eng.max_hops → r.pools.length ≤ eng.max_hops) := by
  unfold find_best_route at h
  rcases best_route_foldl_mem _ none r h with hmem | habs
  · unfold find_all_routes at hmem
    dsimp only [] at hmem
    rw [List.mem_filter] at hmem
    obtain ⟨hmem, _⟩ := hmem
    by_cases hmh : 1 < eng.max_hops
    · rw [if_pos hmh] at hmem
      rcases List.mem_append.mp hmem with hd | hm
      · cases hfd : find_direct_route eng token_in token_out amount_in with
        | none =>
          rw [hfd] at hd
          simp at hd
        | some r0 =>
          rw [hfd] at hd
          simp only [List.mem_singleton] at hd
          subst hd
          have h1 := find_direct_route_single eng token_in token_out amount_in r hfd
          exact ⟨fun _ => h1, fun _ => by omega⟩
      · obtain ⟨p, hp, hev⟩ := List.mem_filterMap.mp hm
        have hlen := paths_loop_mem_length _ _ _ _ p hp
        have hplen := evaluate_path_pools_length eng p amount_in r hev
        constructor
        · intro h1
          rw [h1] at hmh
          exact absurd hmh (lt_irrefl 1)
        · intro _
          omega
    · rw [if_neg hmh] at hmem
      cases hfd : find_direct_route eng token_in token_out amount_in with
      | none =>
        rw [hfd] at hmem
        simp at hmem
      | some r0 =>
        rw [hfd] at hmem
        simp only [List.mem_singleton] at hmem
        subst hmem
        have h1 := find_direct_route_single eng token_in token_out amount_in r hfd
        exact ⟨fun _ => h1, fun hk => by omega⟩
  · cases habs

/-- A UniswapV2 pool between tokens 1 and 2 with reserves (100000, 100000),
fee 30 bps and gas cost 100000. -/
def cx_pool : LiquidityPool :=
  ⟨0, .UniswapV2, 1, 2, 100000, 100000, 30, 100000⟩

/-- A routing engine over cx_pool with max_hops = 0. -/
def eng_zero_hops : RoutingEngine :=
  ⟨[cx_pool], 0, 5⟩

/-- A routing engine over cx_pool with max_hops = 1. -/
def eng_one_hop : RoutingEngine :=
  ⟨[cx_pool], 1, 5⟩

unseal Rat.mul Rat.add Rat.sub Rat.inv in
/-- C7 counterexample: with max_hops = 0 the direct search still runs, so
find_best_route returns a route with one pool, which exceeds max_hops; the
claim for every k fails at k = 0. -/
theorem find_best_route_zero_hops_counterexample :
    (find_best_route eng_zero_hops 1 2 1000).map (fun r => r.pools.length) =
      some 1 ∧
    eng_zero_hops.max_hops = 0 := by
  exact ⟨by decide, rfl⟩

unseal Rat.mul Rat.add Rat.sub Rat.inv in
/-- C7 witness: the hop-bound theorem applied to a concrete engine with
max_hops = 1, whose best route for (1, 2, 1000) exists and has one pool. -/
theorem find_best_route_hop_bound_witness :
    (find_best_route eng_one_hop 1 2 1000).map (fun r => r.pools.length) =
      some 1 := by
  have hsome : (find_best_route eng_one_hop 1 2 1000).isSome = true := by decide
  obtain ⟨r, hr⟩ := Option.isSome_iff_exists.mp hsome
  have hb := (find_best_route_hop_bound eng_one_hop 1 2 1000 r hr).1 rfl
  rw [hr]
  simp [hb]

end CowSolver
